import Mathlib

/-!
# A verification model of the dumbdb storage and query engine

This file shallowly embeds the core of the `dumbdb` repository:

* the value/schema model (`src/query/types.rs`),
* the length-prefixed binary log (`Block`, `src/storage.rs`), including a
  byte-exact model of the msgpack encoding that `rmp_serde` produces for
  `Tuple = Vec<Option<ColumnValue>>`,
* the primary-key `Index` and the `TableBuffer` that replays the log
  (`crates/dumbdb/src/table.rs`),
* the DML layer: `put_item`, `get_item`, `filter_item` and the recursive
  expression evaluator (`src/query/dml/filter_item.rs`, `src/query/error.rs`).

Files are byte lists; machine integers are `Nat` with explicit bounds.
Rust functions that can panic (slice indexing, `Option::unwrap`) are modelled
with `Option`/`RunResult.panicked`; fallible functions return `Except`.
-/

namespace DumbDB

/-! ## Value and schema model (src/query/types.rs) -/

/-- `ColumnType` from `src/query/types.rs` (`Integer | Float | Text | Boolean`). -/
inductive ColumnType where
  | Integer : ColumnType
  | Float : ColumnType
  | Text : ColumnType
  | Boolean : ColumnType
deriving DecidableEq

/-- `ColumnValue` from `src/query/types.rs`: a closed tagged union
`{Integer(u64), Boolean(bool), Text(String)}` (no Float).  A Rust `u64` is a
`Nat` (well-formedness bounds it below `2^64`); a Rust `String` is its list of
UTF-8 bytes (each byte below `256`). -/
inductive ColumnValue where
  | Integer : Nat → ColumnValue
  | Boolean : Bool → ColumnValue
  | Text : List Nat → ColumnValue
deriving DecidableEq

/-- `Tuple` from `src/storage.rs`: `Vec<Option<ColumnValue>>`, a row of data. -/
abbrev Tuple := List (Option ColumnValue)

/-- `ColumnDefinition` from `src/query/types.rs`.  Column names are strings. -/
structure ColumnDefinition where
  name : String
  ty : ColumnType
deriving DecidableEq

/-- `TableDefinition` from `src/query/types.rs`. -/
structure TableDefinition where
  name : String
  columns : List ColumnDefinition
  primary_key : String
deriving DecidableEq

/-- The runtime `ColumnType` of a `ColumnValue` (used by type checking). -/
def ColumnValue.columnType : ColumnValue → ColumnType
  | .Integer _ => .Integer
  | .Boolean _ => .Boolean
  | .Text _ => .Text

/-! ## Well-formedness of values

Rust's types enforce machine bounds that `Nat` does not; these predicates
record exactly those bounds: a `u64` is below `2^64`, a string byte is below
`256`, string and vector lengths fit the msgpack 32-bit headers. -/

/-- A `ColumnValue` whose numeric payloads fit the corresponding Rust types. -/
def wfValue : ColumnValue → Prop
  | .Integer n => n < 2 ^ 64
  | .Boolean _ => True
  | .Text bs => bs.length < 2 ^ 32 ∧ ∀ b ∈ bs, b < 256

instance : DecidablePred wfValue := by
  intro v
  cases v <;> simp only [wfValue] <;> infer_instance

/-- A well-formed row: element count fits the msgpack array header and every
present value is well-formed. -/
def wfTuple (t : Tuple) : Prop :=
  t.length < 2 ^ 32 ∧ ∀ v ∈ t, ∀ c, v = some c → wfValue c

instance : DecidablePred wfTuple := by
  intro t
  unfold wfTuple
  infer_instance

/-! ## Byte-order helpers

`u64::to_le_bytes` / `u64::from_le_bytes` and the big-endian multi-byte
fields of msgpack markers. -/

/-- `k` little-endian base-256 digits of `n` (model of `to_le_bytes`). -/
def natToLE : Nat → Nat → List Nat
  | 0, _ => []
  | k + 1, n => n % 256 :: natToLE k (n / 256)

/-- Read a little-endian byte list back as a number (`from_le_bytes`). -/
def fromLE : List Nat → Nat
  | [] => 0
  | b :: bs => b + 256 * fromLE bs

/-- `k` big-endian base-256 digits of `n` (msgpack numeric fields). -/
def natToBE (k n : Nat) : List Nat := (natToLE k n).reverse

/-- Read a big-endian byte list back as a number. -/
def fromBE (bs : List Nat) : Nat := fromLE bs.reverse

theorem natToLE_length (k n : Nat) : (natToLE k n).length = k := by
  induction k generalizing n with
  | zero => rfl
  | succ k ih => simp [natToLE, ih]

theorem natToBE_length (k n : Nat) : (natToBE k n).length = k := by
  simp [natToBE, natToLE_length]

theorem mod_pow_succ_256 (n k : Nat) :
    n % 256 ^ (k + 1) = n % 256 + 256 * (n / 256 % 256 ^ k) := by
  conv_lhs => rw [pow_succ, mul_comm, Nat.mod_mul]

theorem fromLE_natToLE (k n : Nat) : fromLE (natToLE k n) = n % 256 ^ k := by
  induction k generalizing n with
  | zero => simp [natToLE, fromLE, Nat.mod_one]
  | succ k ih => rw [natToLE, fromLE, ih, mod_pow_succ_256]

theorem fromLE_natToLE_of_lt {k n : Nat} (h : n < 256 ^ k) :
    fromLE (natToLE k n) = n := by
  rw [fromLE_natToLE, Nat.mod_eq_of_lt h]

theorem fromBE_natToBE_of_lt {k n : Nat} (h : n < 256 ^ k) :
    fromBE (natToBE k n) = n := by
  rw [fromBE, natToBE, List.reverse_reverse, fromLE_natToLE_of_lt h]

/-! ## msgpack encoding of a `Tuple`

`serialize_binary` in `src/storage.rs` runs `rmp_serde`'s `Serializer` on a
`Tuple = Vec<Option<ColumnValue>>`:

* a `Vec` of `k` elements is an array header (`fixarray`/`array16`/`array32`,
  most compact form) followed by the elements;
* `None` is nil (`0xc0`), `Some v` is `v` itself;
* `ColumnValue` is `#[serde(untagged)]`: `Integer(u64)` is a msgpack uint in
  its most compact form, `Boolean` is `0xc2`/`0xc3`, `Text` is a str header
  followed by the UTF-8 bytes. -/

/-- Most compact msgpack encoding of a `u64` (rmp `write_uint`). -/
def encodeUInt (n : Nat) : List Nat :=
  if n ≤ 0x7f then [n]
  else if n ≤ 0xff then [0xcc, n]
  else if n ≤ 0xffff then 0xcd :: natToBE 2 n
  else if n ≤ 0xffffffff then 0xce :: natToBE 4 n
  else 0xcf :: natToBE 8 n

/-- Most compact msgpack str header for a byte length (rmp `write_str_len`). -/
def encodeStrHeader (len : Nat) : List Nat :=
  if len ≤ 31 then [0xa0 + len]
  else if len ≤ 0xff then [0xd9, len]
  else if len ≤ 0xffff then 0xda :: natToBE 2 len
  else 0xdb :: natToBE 4 len

/-- Most compact msgpack array header (rmp `write_array_len`). -/
def encodeArrayHeader (k : Nat) : List Nat :=
  if k ≤ 15 then [0x90 + k]
  else if k ≤ 0xffff then 0xdc :: natToBE 2 k
  else 0xdd :: natToBE 4 k

/-- msgpack encoding of one (untagged) `ColumnValue`. -/
def encodeColumnValue : ColumnValue → List Nat
  | .Integer n => encodeUInt n
  | .Boolean false => [0xc2]
  | .Boolean true => [0xc3]
  | .Text bs => encodeStrHeader bs.length ++ bs

/-- msgpack encoding of one `Option<ColumnValue>` element. -/
def encodeElem : Option ColumnValue → List Nat
  | none => [0xc0]
  | some v => encodeColumnValue v

/-- `serialize_binary` (`src/storage.rs`) on a `Tuple`: the msgpack payload
bytes (array header followed by the encoded elements). -/
def serialize_binary (t : Tuple) : List Nat :=
  encodeArrayHeader t.length ++ (t.map encodeElem).flatten

/-! ## msgpack decoding of a `Tuple`

`deserialize_binary` in `src/storage.rs` drives `rmp_serde`'s `Deserializer`
at type `Tuple`.  The format is self-describing; decoding is by marker byte.
Decoders return `none` on any decode failure (the Rust side returns `Err`),
and otherwise the decoded value with the unconsumed remainder. -/

/-- Read an exact big-endian numeric field of `k` bytes. -/
def parseExactBE (k : Nat) (bs : List Nat) : Option (Nat × List Nat) :=
  if k ≤ bs.length then some (fromBE (bs.take k), bs.drop k) else none

/-- Decode one untagged `ColumnValue` by marker byte: a msgpack uint becomes
`Integer`, a bool `Boolean`, a str `Text`; any other marker fails the
untagged match (Rust: `rmp_serde` error). -/
def parseColumnValue : List Nat → Option (ColumnValue × List Nat)
  | [] => none
  | b :: bs =>
    if b ≤ 0x7f then some (.Integer b, bs)
    else if b = 0xcc then
      (parseExactBE 1 bs).map fun (n, r) => (.Integer n, r)
    else if b = 0xcd then
      (parseExactBE 2 bs).map fun (n, r) => (.Integer n, r)
    else if b = 0xce then
      (parseExactBE 4 bs).map fun (n, r) => (.Integer n, r)
    else if b = 0xcf then
      (parseExactBE 8 bs).map fun (n, r) => (.Integer n, r)
    else if b = 0xc2 then some (.Boolean false, bs)
    else if b = 0xc3 then some (.Boolean true, bs)
    else if 0xa0 ≤ b ∧ b ≤ 0xbf then
      let len := b - 0xa0
      if len ≤ bs.length then some (.Text (bs.take len), bs.drop len) else none
    else if b = 0xd9 then
      (parseExactBE 1 bs).bind fun p =>
        if p.1 ≤ p.2.length then some (.Text (p.2.take p.1), p.2.drop p.1) else none
    else if b = 0xda then
      (parseExactBE 2 bs).bind fun p =>
        if p.1 ≤ p.2.length then some (.Text (p.2.take p.1), p.2.drop p.1) else none
    else if b = 0xdb then
      (parseExactBE 4 bs).bind fun p =>
        if p.1 ≤ p.2.length then some (.Text (p.2.take p.1), p.2.drop p.1) else none
    else none

/-- Decode one `Option<ColumnValue>` element: nil is `None`, anything else is
`Some` of the untagged value. -/
def parseElem : List Nat → Option (Option ColumnValue × List Nat)
  | [] => none
  | b :: bs =>
    if b = 0xc0 then some (none, bs)
    else (parseColumnValue (b :: bs)).map fun (v, r) => (some v, r)

/-- Decode the msgpack array header. -/
def parseArrayHeader : List Nat → Option (Nat × List Nat)
  | [] => none
  | b :: bs =>
    if 0x90 ≤ b ∧ b ≤ 0x9f then some (b - 0x90, bs)
    else if b = 0xdc then parseExactBE 2 bs
    else if b = 0xdd then parseExactBE 4 bs
    else none

/-- Decode `k` consecutive elements. -/
def parseElems : Nat → List Nat → Option (List (Option ColumnValue) × List Nat)
  | 0, bs => some ([], bs)
  | k + 1, bs => do
    let (v, r) ← parseElem bs
    let (vs, r2) ← parseElems k r
    pure (v :: vs, r2)

/-- `deserialize_binary` (`src/storage.rs`) at type `Tuple`: decode the array
header and its elements from the front of the buffer (trailing bytes are not
inspected, matching `rmp_serde`'s behaviour on a `Cursor`). -/
def deserialize_binary (bs : List Nat) : Option Tuple := do
  let (k, r) ← parseArrayHeader bs
  let (vs, _) ← parseElems k r
  pure vs

/-! ## Block: the append-only length-prefixed log (src/storage.rs)

A `Block`'s on-disk state is its backing file, a byte list.  I/O failures
(open/flush errors) are outside the model; the byte-level behaviour of a
successful call is modelled exactly. -/

/-- Errors surfaced by the storage layer (the `anyhow` failures of
`src/storage.rs`): a short read (truncated/corrupt frame) or a
`deserialize_binary` failure. -/
inductive StorageError where
  | shortRead : StorageError
  | decodeError : StorageError
deriving DecidableEq

/-- `LENGTH_PREFIX_SIZE` from `src/storage.rs`. -/
def LENGTH_PREFIX_SIZE : Nat := 8

/-- The frame `Block::write` appends for a tuple: the 8-byte little-endian
length of `serialize_binary t` followed by that payload
(`write_to_file` in `src/storage.rs`). -/
def encodeFrame (t : Tuple) : List Nat :=
  natToLE LENGTH_PREFIX_SIZE (serialize_binary t).length ++ serialize_binary t

/-- `Block::write` (`src/storage.rs`): serialize, append the length-prefixed
frame, return the payload length.  First component: the file after the write;
second: the returned length. -/
def Block.write (file : List Nat) (t : Tuple) : List Nat × Nat :=
  (file ++ encodeFrame t, (serialize_binary t).length)

/-- `Block::seek_to_offset` (`src/storage.rs`): seek to `offset`, read the
8-byte length prefix, read exactly that many payload bytes, decode.
`read_exact` past end-of-file is a short read. -/
def Block.seek_to_offset (offset : Nat) (file : List Nat) :
    Except StorageError Tuple :=
  let rest := file.drop offset
  if LENGTH_PREFIX_SIZE ≤ rest.length then
    let tuple_length := fromLE (rest.take LENGTH_PREFIX_SIZE)
    let body := rest.drop LENGTH_PREFIX_SIZE
    if tuple_length ≤ body.length then
      match deserialize_binary (body.take tuple_length) with
      | some t => .ok t
      | none => .error .decodeError
    else .error .shortRead
  else .error .shortRead

/-- The unfold loop of `Block::get_stream_with_length` (`src/storage.rs`):
read an 8-byte length then that many payload bytes, yielding
`(payload, length)` pairs; stop silently when either read hits end-of-file.
`fuel` bounds the number of loop iterations (each iteration consumes at least
8 bytes, so `file.length + 1` fuel is always enough). -/
def readRawFramesFuel : Nat → List Nat → List (List Nat × Nat)
  | 0, _ => []
  | fuel + 1, file =>
    if LENGTH_PREFIX_SIZE ≤ file.length then
      let len := fromLE (file.take LENGTH_PREFIX_SIZE)
      let rest := file.drop LENGTH_PREFIX_SIZE
      if len ≤ rest.length then
        (rest.take len, len) :: readRawFramesFuel fuel (rest.drop len)
      else []
    else []

/-- The raw `(payload, length)` frames `get_stream_with_length` yields. -/
def readRawFrames (file : List Nat) : List (List Nat × Nat) :=
  readRawFramesFuel (file.length + 1) file

/-- `Block::get_reader_with_length` (`src/storage.rs`): each raw frame's
payload is decoded with `deserialize_binary`; a consumer that propagates the
per-item `Result` (as `build_index` and `filter_item` do) fails at the first
decode error, which `none` models. -/
def readTuplesWithLength (file : List Nat) : Option (List (Tuple × Nat)) :=
  (readRawFrames file).mapM fun p => (deserialize_binary p.1).map fun t => (t, p.2)

/-- `Block::get_reader` (`src/storage.rs`): the tuples without their lengths. -/
def readTuples (file : List Nat) : Option (List Tuple) :=
  (readTuplesWithLength file).map fun l => l.map Prod.fst

/-- `calculate_new_offset` (`src/storage.rs`): skip the length prefix plus
the tuple payload. -/
def calculate_new_offset (tuple_length current_offset : Nat) : Nat :=
  current_offset + LENGTH_PREFIX_SIZE + tuple_length

/-- The whole-file contents written by a sequence of `Block::write` calls. -/
def encodeLog (ts : List Tuple) : List Nat := (ts.map encodeFrame).flatten


/-! ## Index and TableBuffer (crates/dumbdb/src/table.rs) -/

/-- `TableBufferError` from `crates/dumbdb/src/table.rs`. -/
inductive TableBufferError where
  | PrimaryKeyNotInDefn : TableBufferError
  | PrimaryKeyNotInTuple : TableBufferError
  | StorageError : StorageError → TableBufferError
deriving DecidableEq

/-- The outcome of running a piece of Rust code that can return a value,
return an error, or panic (here: `Vec` indexing out of bounds and
`Option::unwrap` on `None`). -/
inductive RunResult (ε α : Type) where
  | ok : α → RunResult ε α
  | error : ε → RunResult ε α
  | panicked : RunResult ε α
deriving DecidableEq

instance {ε α : Type} [DecidableEq ε] [DecidableEq α] :
    DecidableEq (Except ε α)
  | .ok x, .ok y =>
    if h : x = y then isTrue (by rw [h])
    else isFalse (by intro hc; injection hc; contradiction)
  | .ok _, .error _ => isFalse (by intro hc; exact Except.noConfusion hc)
  | .error _, .ok _ => isFalse (by intro hc; exact Except.noConfusion hc)
  | .error x, .error y =>
    if h : x = y then isTrue (by rw [h])
    else isFalse (by intro hc; injection hc; contradiction)

/-- `Index` from `crates/dumbdb/src/table.rs`: the `HashMap<ColumnValue, u64>`
from primary key to byte offset, plus the cursor (`byte_offset`).  The map is
an association list with the `HashMap` lookup/insert semantics: `get` returns
the first (most recently inserted) binding. -/
structure Index where
  map : List (ColumnValue × Nat)
  byte_offset : Nat
deriving DecidableEq

/-- `Index::new`. -/
def Index.new : Index := ⟨[], 0⟩

/-- `Index::get`. -/
def Index.get (idx : Index) (key : ColumnValue) : Option Nat := idx.map.lookup key

/-- `Index::update` (`crates/dumbdb/src/table.rs`): record
`key → offset-before-this-write`, then advance the cursor with
`calculate_new_offset`. -/
def Index.update (idx : Index) (key : ColumnValue) (tuple_length : Nat) : Index :=
  { map := (key, idx.byte_offset) :: idx.map,
    byte_offset := calculate_new_offset tuple_length idx.byte_offset }

/-- `TableBuffer` from `crates/dumbdb/src/table.rs`: one `Block` (its backing
file's bytes), one `Index`, and the primary key's schema position. -/
structure TableBuffer where
  file : List Nat
  index : Index
  pk_position : Nat
deriving DecidableEq

/-- The loop body of `TableBuffer::build_index`: for each `(tuple, length)`
frame, read `tuple[pk_position]` (a panic when out of bounds), fail with
`PrimaryKeyNotInTuple` when null, and `Index::update` in file order. -/
def buildIndexLoop (pk : Nat) :
    List (Tuple × Nat) → Index → RunResult TableBufferError Index
  | [], idx => .ok idx
  | (t, len) :: rest, idx =>
    match t.get? pk with
    | none => .panicked
    | some none => .error .PrimaryKeyNotInTuple
    | some (some index_key) => buildIndexLoop pk rest (idx.update index_key len)

/-- `TableBuffer::build_index` (`crates/dumbdb/src/table.rs`): stream the
whole block with `get_reader_with_length` and update a fresh index per frame. -/
def build_index (pk : Nat) (file : List Nat) : RunResult TableBufferError Index :=
  match readTuplesWithLength file with
  | none => .error (.StorageError .decodeError)
  | some frames => buildIndexLoop pk frames Index.new

/-- `TableBuffer::new` given an already-resolved primary-key position: open
the block and rebuild the index by replaying the log. -/
def TableBuffer.newFromFile (pk : Nat) (file : List Nat) :
    RunResult TableBufferError TableBuffer :=
  match build_index pk file with
  | .ok idx => .ok ⟨file, idx, pk⟩
  | .error e => .error e
  | .panicked => .panicked

/-- `TableBuffer::new` (`crates/dumbdb/src/table.rs`): resolve the primary
key's position in the schema (`PrimaryKeyNotInDefn` when absent), then replay. -/
def TableBuffer.new (td : TableDefinition) (file : List Nat) :
    RunResult TableBufferError TableBuffer :=
  match td.columns.findIdx? (fun col_def => col_def.name = td.primary_key) with
  | none => .error .PrimaryKeyNotInDefn
  | some key_position => TableBuffer.newFromFile key_position file

/-- A freshly created table's buffer: empty file, empty index, cursor `0`
(what `TableBuffer::new` produces on the empty file `create_table` makes). -/
def TableBuffer.mkEmpty (pk : Nat) : TableBuffer := ⟨[], Index.new, pk⟩

/-- `TableBuffer::write` (`crates/dumbdb/src/table.rs`): append the tuple to
the block, then `Index::update` with the returned payload length. -/
def TableBuffer.write (tb : TableBuffer) (key : ColumnValue) (tuple : Tuple) :
    TableBuffer :=
  { tb with
    file := (Block.write tb.file tuple).1,
    index := tb.index.update key (Block.write tb.file tuple).2 }

/-- A sequence of `TableBuffer::write` calls, in order. -/
def TableBuffer.writeSeq (tb : TableBuffer) (ws : List (ColumnValue × Tuple)) :
    TableBuffer :=
  ws.foldl (fun tb w => tb.write w.1 w.2) tb

/-- `TableBuffer::contains_key`. -/
def TableBuffer.contains_key (tb : TableBuffer) (key : ColumnValue) : Bool :=
  (tb.index.map.lookup key).isSome

/-- The loop of `TableBuffer::scan_block_get_item`: walk every decoded tuple,
read its primary-key field (panic when out of bounds, `PrimaryKeyNotInTuple`
when null), return the first tuple whose key matches. -/
def scanLoop (pk : Nat) (user_key : ColumnValue) :
    List Tuple → RunResult TableBufferError (Option Tuple)
  | [] => .ok none
  | t :: rest =>
    match t.get? pk with
    | none => .panicked
    | some none => .error .PrimaryKeyNotInTuple
    | some (some key) =>
      if key = user_key then .ok (some t) else scanLoop pk user_key rest

/-- `TableBuffer::scan_block_get_item` (`crates/dumbdb/src/table.rs`). -/
def TableBuffer.scan_block_get_item (tb : TableBuffer) (user_key : ColumnValue) :
    RunResult TableBufferError (Option Tuple) :=
  match readTuples tb.file with
  | none => .error (.StorageError .decodeError)
  | some ts => scanLoop tb.pk_position user_key ts

/-- `TableBuffer::get` (`crates/dumbdb/src/table.rs`): index hit →
`Block::seek_to_offset`; index miss → `None`, unless `scan_file` requests the
full linear scan. -/
def TableBuffer.get (tb : TableBuffer) (key : ColumnValue) (scan_file : Bool) :
    RunResult TableBufferError (Option Tuple) :=
  match tb.index.get key with
  | some offset =>
    match Block.seek_to_offset offset tb.file with
    | .ok t => .ok (some t)
    | .error e => .error (.StorageError e)
  | none =>
    if scan_file then tb.scan_block_get_item key else .ok none

/-! ## Catalog, tables and the query layer
(crates/dumbdb/src/catalog.rs, src/query/error.rs) -/

/-- `Table` from `crates/dumbdb/src/catalog.rs`: schema plus buffer. -/
structure Table where
  name : String
  columns : List ColumnDefinition
  primary_key : String
  table_buffer : TableBuffer
deriving DecidableEq

/-- `Catalog` (`crates/dumbdb/src/catalog.rs`), restricted to its in-memory
table list; directory paths play no role in the modelled operations. -/
structure Catalog where
  tables : List Table
deriving DecidableEq

/-- `Catalog::get_table`: first table with the given name. -/
def Catalog.get_table (cat : Catalog) (name : String) : Option Table :=
  cat.tables.find? (fun table => table.name = name)

/-- `Catalog::get_table_mut` followed by a mutation of the found table:
every table with the given name is rewritten in place (at most one exists
under the DDL layer's uniqueness check; `find?`-semantics are preserved
because the mutation keeps the name). -/
def Catalog.updateTable (cat : Catalog) (name : String) (f : Table → Table) :
    Catalog :=
  ⟨cat.tables.map fun table => if table.name = name then f table else table⟩

/-- `QueryError` from `src/query/error.rs` (the variants reachable in the
modelled operations). -/
inductive QueryError where
  | TableNotFound : String → QueryError
  | TableAlreadyExists : String → QueryError
  | ItemMustContainPrimaryKey : String → QueryError
  | PrimaryKeyAlreadyExists : ColumnValue → QueryError
  | UnknownColumnInItem : String → QueryError
  | ColumnTypeMismatch : ColumnType → ColumnType → QueryError
  | TableStorageError : TableBufferError → QueryError
deriving DecidableEq

/-- An `Item`: the put payload, a map from column name to value.  The
`HashMap` is an association list (first binding wins on lookup); its
iteration order for validation is the list order. -/
abbrev Item := List (String × ColumnValue)

/-- `Record` from `crates/dumbdb/src/query/dml/common.rs`: a map from column
name to optional value, here the association list built in schema order. -/
abbrev Record := List (String × Option ColumnValue)

/-- `build_record` (`crates/dumbdb/src/query/dml/common.rs`): pair each tuple
position with `columns[idx].name`; the indexing panics (`none`) when the
tuple is longer than the schema. -/
def build_record (columns : List ColumnDefinition) (item : Tuple) : Option Record :=
  if item.length ≤ columns.length then
    some ((columns.map fun c => c.name).zip item)
  else none

/-- Validation loop of `put_item` over the item's columns: unknown column or
runtime/declared type mismatch produce the first error, in iteration order.
(`Table::get_column` is the first schema column with that name.) -/
def typecheckItem (columns : List ColumnDefinition) : Item → Option QueryError
  | [] => none
  | (column_name, value) :: rest =>
    match columns.find? (fun c => c.name = column_name) with
    | none => some (.UnknownColumnInItem column_name)
    | some column =>
      if column.ty = value.columnType then typecheckItem columns rest
      else some (.ColumnTypeMismatch column.ty value.columnType)

/-- Modelled from the spec: the final `put_item`
(`crates/dumbdb/src/query/dml/put_item.rs`) is missing from the snapshot —
only its module declaration, its `Database::put_item` caller, its tests and
its `QueryError` variants are present.  Per spec §4.5: `TableNotFound` if the
table is absent; `ItemMustContainPrimaryKey` if the item omits the
primary-key column; `PrimaryKeyAlreadyExists` if that key is already indexed
(insert-only, checked before anything is written); `UnknownColumnInItem` /
`ColumnTypeMismatch` for invalid supplied columns; on success the item is
reordered into a schema-positional tuple (unsupplied columns null) and
written through `TableBuffer::write`. -/
def put_item (cat : Catalog) (table_name : String) (item : Item) :
    Except QueryError Catalog :=
  match cat.get_table table_name with
  | none => .error (.TableNotFound table_name)
  | some table =>
    match item.lookup table.primary_key with
    | none => .error (.ItemMustContainPrimaryKey table.primary_key)
    | some key =>
      if table.table_buffer.contains_key key then
        .error (.PrimaryKeyAlreadyExists key)
      else
        match typecheckItem table.columns item with
        | some e => .error e
        | none =>
          let tuple := table.columns.map fun column => item.lookup column.name
          .ok (cat.updateTable table_name fun t =>
            { t with table_buffer := t.table_buffer.write key tuple })

/-- Modelled from the spec: the final `get_item`
(`crates/dumbdb/src/query/dml/get_item.rs`) is missing from the snapshot —
only its module declaration, caller and tests are present.  Per spec §4.5 it
returns `TableNotFound` if the table is absent and otherwise delegates to
`TableBuffer::get` (embedded above from `crates/dumbdb/src/table.rs`),
converting a found tuple to a `Record`. -/
def get_item (cat : Catalog) (table_name : String) (key : ColumnValue)
    (scan_file : Bool) : RunResult QueryError (Option Record) :=
  match cat.get_table table_name with
  | none => .error (.TableNotFound table_name)
  | some table =>
    match table.table_buffer.get key scan_file with
    | .ok none => .ok none
    | .ok (some t) =>
      match build_record table.columns t with
      | some r => .ok (some r)
      | none => .panicked
    | .error e => .error (.TableStorageError e)
    | .panicked => .panicked

/-! ## Expressions and filter_item (src/query/types.rs,
src/query/dml/filter_item.rs) -/

/-- `Operator` from `src/query/types.rs`. -/
inductive Operator where
  | Eq : Operator
  | Neq : Operator
  | Gt : Operator
  | Lt : Operator
  | Gte : Operator
  | Lte : Operator
deriving DecidableEq

/-- `ColumnComparison` from `src/query/types.rs`. -/
structure ColumnComparison where
  column : String
  operator : Operator
  value : ColumnValue
deriving DecidableEq

/-- `Expression` from `src/query/types.rs`. -/
inductive Expression where
  | And : List Expression → Expression
  | Or : List Expression → Expression
  | Not : Expression → Expression
  | ColumnComparison : ColumnComparison → Expression

/-- Lexicographic byte order: Rust's derived `Ord` on `String`. -/
def bytesLt : List Nat → List Nat → Bool
  | _, [] => false
  | [], _ :: _ => true
  | a :: as, b :: bs => a < b || (a = b && bytesLt as bs)

/-- Rust's derived `PartialOrd` on `ColumnValue` (total on these variants):
declaration order `Integer < Boolean < Text`, then the field orders. -/
def ColumnValue.lt : ColumnValue → ColumnValue → Bool
  | .Integer a, .Integer b => a < b
  | .Integer _, .Boolean _ => true
  | .Integer _, .Text _ => true
  | .Boolean _, .Integer _ => false
  | .Boolean a, .Boolean b => !a && b
  | .Boolean _, .Text _ => true
  | .Text _, .Integer _ => false
  | .Text _, .Boolean _ => false
  | .Text a, .Text b => bytesLt a b

/-- `evaluate_binary_operator` (`src/query/dml/filter_item.rs`), using
`ColumnValue`'s derived equality and order. -/
def evaluate_binary_operator (op : Operator) (val_a val_b : ColumnValue) : Bool :=
  match op with
  | .Eq => val_a = val_b
  | .Neq => val_a ≠ val_b
  | .Gt => val_b.lt val_a
  | .Lt => val_a.lt val_b
  | .Gte => !val_a.lt val_b
  | .Lte => !val_b.lt val_a

mutual

/-- `evaluate_expression` (`src/query/dml/filter_item.rs`).  `none` models a
panic: the `.unwrap()` of the schema-position lookup for an unknown column,
the `tuple[col_pos]` indexing, and the `.unwrap()` of a null value.  `And` is
`Iterator::all` (short-circuiting, vacuously true), `Or` is `Iterator::any`
(short-circuiting, vacuously false). -/
def evaluate_expression (columns : List ColumnDefinition) :
    Expression → Tuple → Option Bool
  | .ColumnComparison comparison, tuple =>
    match columns.findIdx? (fun col_def => col_def.name = comparison.column) with
    | none => none
    | some col_pos =>
      match tuple.get? col_pos with
      | none => none
      | some none => none
      | some (some column_value) =>
        some (evaluate_binary_operator comparison.operator column_value
          comparison.value)
  | .And expressions, tuple => evalAll columns expressions tuple
  | .Or expressions, tuple => evalAny columns expressions tuple
  | .Not expression, tuple =>
    (evaluate_expression columns expression tuple).map (! ·)

/-- `Iterator::all` over sub-expression evaluation: stops at the first
`false` (or panic). -/
def evalAll (columns : List ColumnDefinition) :
    List Expression → Tuple → Option Bool
  | [], _ => some true
  | e :: es, tuple =>
    match evaluate_expression columns e tuple with
    | none => none
    | some false => some false
    | some true => evalAll columns es tuple

/-- `Iterator::any` over sub-expression evaluation: stops at the first
`true` (or panic). -/
def evalAny (columns : List ColumnDefinition) :
    List Expression → Tuple → Option Bool
  | [], _ => some false
  | e :: es, tuple =>
    match evaluate_expression columns e tuple with
    | none => none
    | some true => some true
    | some false => evalAny columns es tuple

end

/-- The scan loop of `filter_item`: evaluate the filter on every decoded
tuple in file order, collecting the `Record`s of the matches; an evaluator
panic (or a `build_record` panic) aborts the run. -/
def filterLoop (columns : List ColumnDefinition) (filter : Expression) :
    List Tuple → RunResult QueryError (List Record)
  | [] => .ok []
  | t :: ts =>
    match evaluate_expression columns filter t with
    | none => .panicked
    | some false => filterLoop columns filter ts
    | some true =>
      match build_record columns t with
      | none => .panicked
      | some r =>
        match filterLoop columns filter ts with
        | .ok rs => .ok (r :: rs)
        | .error e => .error e
        | .panicked => .panicked

/-- `filter_item` (`src/query/dml/filter_item.rs`): `TableNotFound` if the
table is absent; otherwise stream every frame of the block, decode it,
evaluate the filter, and collect matching records. -/
def filter_item (cat : Catalog) (table_name : String) (filter : Expression) :
    RunResult QueryError (List Record) :=
  match cat.get_table table_name with
  | none => .error (.TableNotFound table_name)
  | some table =>
    match readTuples table.table_buffer.file with
    | none => .error (.TableStorageError (.StorageError .decodeError))
    | some ts => filterLoop table.columns filter ts

/-! ## Specification-side helper functions -/

/-- Apply a list of `(key, payload length)` updates to an index in order
(the pure unfolding of the `Index::update` calls a write sequence performs). -/
def applyUpdates (idx : Index) : List (ColumnValue × Nat) → Index
  | [] => idx
  | (key, len) :: rest => applyUpdates (idx.update key len) rest

/-- The byte offset of the last frame (in file order) whose tuple carries the
primary-key value `k`, starting the cursor at `c`: the specification of
last-writer-wins replay. -/
def lastOffsetOfFrames (pk : Nat) (k : ColumnValue) (c : Nat) :
    List (Tuple × Nat) → Option Nat
  | [] => none
  | (t, len) :: rest =>
    match lastOffsetOfFrames pk k (c + 8 + len) rest with
    | some o => some o
    | none => if t.get? pk = some (some k) then some c else none

/-! # Theorems -/

/-! ## Round-trip: decoding inverts encoding -/

theorem parseExactBE_encode {k n : Nat} (h : n < 256 ^ k) (rest : List Nat) :
    parseExactBE k (natToBE k n ++ rest) = some (n, rest) := by
  have hlen : (natToBE k n).length = k := natToBE_length k n
  unfold parseExactBE
  rw [List.take_left' hlen, List.drop_left' hlen, if_pos (by simp [hlen]),
    fromBE_natToBE_of_lt h]

theorem parseColumnValue_encodeUInt {n : Nat} (h : n < 2 ^ 64) (rest : List Nat) :
    parseColumnValue (encodeUInt n ++ rest) = some (.Integer n, rest) := by
  unfold encodeUInt
  split_ifs with h1 h2 h3 h4
  · simp [parseColumnValue, h1]
  · show parseColumnValue (0xcc :: (n :: rest)) = _
    rw [parseColumnValue]
    rw [if_neg (by omega), if_pos rfl]
    have h1b : parseExactBE 1 ([n] ++ rest) = some (n, rest) := by
      have := parseExactBE_encode (k := 1) (n := n) (by omega) rest
      simpa [natToBE, natToLE, Nat.mod_eq_of_lt (show n < 256 by omega)]
        using this
    simp only [List.singleton_append] at h1b
    rw [h1b]
    rfl
  · show parseColumnValue (0xcd :: (natToBE 2 n ++ rest)) = _
    rw [parseColumnValue]
    repeat rw [if_neg (by omega)]
    rw [if_pos rfl, parseExactBE_encode (by omega) rest]
    rfl
  · show parseColumnValue (0xce :: (natToBE 4 n ++ rest)) = _
    rw [parseColumnValue]
    repeat rw [if_neg (by omega)]
    rw [if_pos rfl, parseExactBE_encode (by omega) rest]
    rfl
  · show parseColumnValue (0xcf :: (natToBE 8 n ++ rest)) = _
    rw [parseColumnValue]
    repeat rw [if_neg (by omega)]
    rw [if_pos rfl, parseExactBE_encode (by omega) rest]
    rfl

theorem parseColumnValue_encodeText {bs : List Nat} (h : bs.length < 2 ^ 32)
    (rest : List Nat) :
    parseColumnValue ((encodeStrHeader bs.length ++ bs) ++ rest) =
      some (.Text bs, rest) := by
  unfold encodeStrHeader
  split_ifs with h1 h2 h3
  · show parseColumnValue ((0xa0 + bs.length) :: (bs ++ rest)) = _
    rw [parseColumnValue]
    repeat rw [if_neg (by omega)]
    rw [if_pos (by omega)]
    have hsub : 0xa0 + bs.length - 0xa0 = bs.length := by omega
    rw [hsub, if_pos (by simp), List.take_left, List.drop_left]
  · show parseColumnValue (0xd9 :: (bs.length :: (bs ++ rest))) = _
    rw [parseColumnValue]
    repeat rw [if_neg (by omega)]
    rw [if_pos rfl]
    have h1b : parseExactBE 1 ([bs.length] ++ (bs ++ rest)) =
        some (bs.length, bs ++ rest) := by
      have := parseExactBE_encode (k := 1) (n := bs.length) (by omega) (bs ++ rest)
      simpa [natToBE, natToLE,
        Nat.mod_eq_of_lt (show bs.length < 256 by omega)] using this
    simp only [List.singleton_append] at h1b
    rw [h1b, Option.some_bind]
    rw [if_pos (by simp)]
    rw [show ((bs.length, bs ++ rest).2.take (bs.length, bs ++ rest).1) = bs from
      List.take_left bs rest]
    rw [show ((bs.length, bs ++ rest).2.drop (bs.length, bs ++ rest).1) = rest from
      List.drop_left bs rest]
  · show parseColumnValue (0xda :: (natToBE 2 bs.length ++ (bs ++ rest))) = _
    rw [parseColumnValue]
    repeat rw [if_neg (by omega)]
    rw [if_pos rfl, parseExactBE_encode (by omega) _, Option.some_bind]
    rw [if_pos (by simp)]
    rw [show ((bs.length, bs ++ rest).2.take (bs.length, bs ++ rest).1) = bs from
      List.take_left bs rest]
    rw [show ((bs.length, bs ++ rest).2.drop (bs.length, bs ++ rest).1) = rest from
      List.drop_left bs rest]
  · show parseColumnValue (0xdb :: (natToBE 4 bs.length ++ (bs ++ rest))) = _
    rw [parseColumnValue]
    repeat rw [if_neg (by omega)]
    rw [if_pos rfl, parseExactBE_encode (by omega) _, Option.some_bind]
    rw [if_pos (by simp)]
    rw [show ((bs.length, bs ++ rest).2.take (bs.length, bs ++ rest).1) = bs from
      List.take_left bs rest]
    rw [show ((bs.length, bs ++ rest).2.drop (bs.length, bs ++ rest).1) = rest from
      List.drop_left bs rest]

theorem parseColumnValue_encode {v : ColumnValue} (h : wfValue v)
    (rest : List Nat) :
    parseColumnValue (encodeColumnValue v ++ rest) = some (v, rest) := by
  cases v with
  | Integer n => exact parseColumnValue_encodeUInt h rest
  | Boolean b =>
    cases b <;> simp [encodeColumnValue, parseColumnValue]
  | Text bs =>
    rw [encodeColumnValue, List.append_assoc]
    rw [← List.append_assoc]
    exact parseColumnValue_encodeText h.1 rest

/-- The first byte of an encoded `ColumnValue` is never the nil marker. -/
theorem encodeColumnValue_head_ne_nil (v : ColumnValue) :
    ∃ b bs, encodeColumnValue v = b :: bs ∧ b ≠ 0xc0 := by
  cases v with
  | Integer n =>
    simp only [encodeColumnValue, encodeUInt]
    split_ifs with h1 h2 h3 h4
    · exact ⟨n, [], rfl, by omega⟩
    · exact ⟨0xcc, [n], rfl, by omega⟩
    · exact ⟨0xcd, natToBE 2 n, rfl, by omega⟩
    · exact ⟨0xce, natToBE 4 n, rfl, by omega⟩
    · exact ⟨0xcf, natToBE 8 n, rfl, by omega⟩
  | Boolean b =>
    cases b
    · exact ⟨0xc2, [], rfl, by omega⟩
    · exact ⟨0xc3, [], rfl, by omega⟩
  | Text bs =>
    simp only [encodeColumnValue, encodeStrHeader]
    split_ifs with h1 h2 h3
    · exact ⟨0xa0 + bs.length, bs, by simp, by omega⟩
    · exact ⟨0xd9, bs.length :: bs, by simp, by omega⟩
    · exact ⟨0xda, natToBE 2 bs.length ++ bs, by simp, by omega⟩
    · exact ⟨0xdb, natToBE 4 bs.length ++ bs, by simp, by omega⟩

theorem parseElem_encode {e : Option ColumnValue}
    (h : ∀ c, e = some c → wfValue c) (rest : List Nat) :
    parseElem (encodeElem e ++ rest) = some (e, rest) := by
  cases e with
  | none => simp [encodeElem, parseElem]
  | some v =>
    obtain ⟨b, bs, henc, hne⟩ := encodeColumnValue_head_ne_nil v
    rw [encodeElem, henc, List.cons_append, parseElem, if_neg hne,
      ← List.cons_append, ← henc, parseColumnValue_encode (h v rfl) rest]
    rfl

theorem parseElems_encode {t : Tuple}
    (h : ∀ v ∈ t, ∀ c, v = some c → wfValue c) (rest : List Nat) :
    parseElems t.length ((t.map encodeElem).flatten ++ rest) = some (t, rest) := by
  induction t with
  | nil => simp [parseElems]
  | cons e t ih =>
    have he : ∀ c, e = some c → wfValue c := h e (by simp)
    rw [List.length_cons, List.map_cons, List.flatten_cons, List.append_assoc,
      parseElems]
    rw [parseElem_encode he]
    have ht : ∀ v ∈ t, ∀ c, v = some c → wfValue c := by
      intro v hv; exact h v (by simp [hv])
    simp only [Option.bind_eq_bind, Option.some_bind]
    rw [ih ht]
    rfl

theorem parseArrayHeader_encode {k : Nat} (h : k < 2 ^ 32) (rest : List Nat) :
    parseArrayHeader (encodeArrayHeader k ++ rest) = some (k, rest) := by
  unfold encodeArrayHeader
  split_ifs with h1 h2
  · show parseArrayHeader ((0x90 + k) :: rest) = _
    rw [parseArrayHeader, if_pos (by constructor <;> omega)]
    have hk : 0x90 + k - 0x90 = k := by omega
    rw [hk]
  · show parseArrayHeader (0xdc :: (natToBE 2 k ++ rest)) = _
    rw [parseArrayHeader, if_neg (by omega), if_pos rfl,
      parseExactBE_encode (by omega) rest]
  · show parseArrayHeader (0xdd :: (natToBE 4 k ++ rest)) = _
    rw [parseArrayHeader, if_neg (by omega), if_neg (by omega), if_pos rfl,
      parseExactBE_encode (by omega) rest]

/-- Decoding inverts encoding: `deserialize_binary` recovers any well-formed
`Tuple` from the front of its `serialize_binary` payload, whatever follows. -/
theorem deserialize_serialize {t : Tuple} (h : wfTuple t) (rest : List Nat) :
    deserialize_binary (serialize_binary t ++ rest) = some t := by
  rw [serialize_binary, deserialize_binary, List.append_assoc,
    parseArrayHeader_encode h.1]
  simp only [Option.bind_eq_bind, Option.some_bind]
  rw [parseElems_encode h.2]
  rfl

/-! ## Reading back what was written -/

theorem seek_to_offset_append {t : Tuple} (file : List Nat) (h : wfTuple t)
    (hlen : (serialize_binary t).length < 2 ^ 64) :
    Block.seek_to_offset file.length (file ++ encodeFrame t) = .ok t := by
  have hpre : (natToLE LENGTH_PREFIX_SIZE (serialize_binary t).length).length =
      LENGTH_PREFIX_SIZE := natToLE_length _ _
  rw [Block.seek_to_offset]
  simp only [List.drop_left, encodeFrame]
  rw [if_pos (by simp [hpre]), List.take_left' hpre, List.drop_left' hpre,
    fromLE_natToLE_of_lt (by exact_mod_cast hlen)]
  rw [if_pos (by simp), List.take_of_length_le (by simp)]
  have := deserialize_serialize h []
  rw [List.append_nil] at this
  rw [this]

theorem readRawFramesFuel_nil (fuel : Nat) : readRawFramesFuel fuel [] = [] := by
  cases fuel <;> simp [readRawFramesFuel, LENGTH_PREFIX_SIZE]

theorem readRawFramesFuel_cons (fuel : Nat) {t : Tuple}
    (hlen : (serialize_binary t).length < 2 ^ 64) (tail : List Nat) :
    readRawFramesFuel (fuel + 1) (encodeFrame t ++ tail) =
      (serialize_binary t, (serialize_binary t).length) ::
        readRawFramesFuel fuel tail := by
  have hpre : (natToLE LENGTH_PREFIX_SIZE (serialize_binary t).length).length =
      LENGTH_PREFIX_SIZE := natToLE_length _ _
  rw [readRawFramesFuel, encodeFrame, List.append_assoc]
  rw [if_pos (by simp [hpre]), List.take_left' hpre, List.drop_left' hpre,
    fromLE_natToLE_of_lt (by exact_mod_cast hlen)]
  rw [if_pos (by simp), List.take_left, List.drop_left]

theorem encodeFrame_length (t : Tuple) :
    (encodeFrame t).length = 8 + (serialize_binary t).length := by
  simp [encodeFrame, natToLE_length, LENGTH_PREFIX_SIZE]

theorem length_le_encodeLog (ts : List Tuple) : ts.length ≤ (encodeLog ts).length := by
  induction ts with
  | nil => simp [encodeLog]
  | cons t ts ih =>
    simp only [encodeLog, List.map_cons, List.flatten_cons, List.length_append,
      List.length_cons] at *
    have := encodeFrame_length t
    omega

theorem readRawFramesFuel_encodeLog {ts : List Tuple}
    (hlen : ∀ t ∈ ts, (serialize_binary t).length < 2 ^ 64) :
    ∀ fuel, ts.length ≤ fuel →
      readRawFramesFuel fuel (encodeLog ts) =
        ts.map fun t => (serialize_binary t, (serialize_binary t).length) := by
  induction ts with
  | nil => intro fuel _; simp [encodeLog, readRawFramesFuel_nil]
  | cons t ts ih =>
    intro fuel hfuel
    obtain ⟨fuel, rfl⟩ : ∃ f, fuel = f + 1 := by
      cases fuel with
      | zero => simp at hfuel
      | succ f => exact ⟨f, rfl⟩
    rw [show encodeLog (t :: ts) = encodeFrame t ++ encodeLog ts by
      simp [encodeLog]]
    rw [readRawFramesFuel_cons fuel (hlen t (by simp)) _]
    rw [ih (fun u hu => hlen u (by simp [hu])) fuel (by simp at hfuel; omega)]
    simp

theorem readRawFrames_encodeLog {ts : List Tuple}
    (hlen : ∀ t ∈ ts, (serialize_binary t).length < 2 ^ 64) :
    readRawFrames (encodeLog ts) =
      ts.map fun t => (serialize_binary t, (serialize_binary t).length) := by
  rw [readRawFrames]
  exact readRawFramesFuel_encodeLog hlen _ (by have := length_le_encodeLog ts; omega)

theorem readTuplesWithLength_encodeLog {ts : List Tuple}
    (hwf : ∀ t ∈ ts, wfTuple t)
    (hlen : ∀ t ∈ ts, (serialize_binary t).length < 2 ^ 64) :
    readTuplesWithLength (encodeLog ts) =
      some (ts.map fun t => (t, (serialize_binary t).length)) := by
  rw [readTuplesWithLength, readRawFrames_encodeLog hlen]
  induction ts with
  | nil => rfl
  | cons t ts ih =>
    have hdec : deserialize_binary (serialize_binary t) = some t := by
      have := deserialize_serialize (hwf t (by simp)) []
      rwa [List.append_nil] at this
    simp only [List.map_cons, List.mapM_cons, hdec, Option.map_some]
    rw [ih (fun u hu => hwf u (by simp [hu])) (fun u hu => hlen u (by simp [hu]))]
    rfl

/-! ## C1: write/seek round-trip -/

/-- C1: for every tuple `t`, if `Block::write t` appends a frame starting at
byte offset `o` (the file length before the write), then
`Block::seek_to_offset o` on the resulting file returns a tuple equal to `t`:
serialization, length-prefixed framing and deserialization round-trip every
(well-formed) `Tuple` value. -/
theorem write_then_seek_returns_written_tuple (file : List Nat) (t : Tuple)
    (hwf : wfTuple t) (hlen : (serialize_binary t).length < 2 ^ 64) :
    Block.seek_to_offset file.length (Block.write file t).1 = .ok t :=
  seek_to_offset_append file hwf hlen

/-- C1 witness: the round-trip at a concrete file and tuple exercising every
value variant and a null. -/
theorem write_then_seek_returns_written_tuple_witness :
    Block.seek_to_offset 2
        (Block.write [9, 9]
          [some (.Integer 300), none, some (.Boolean true),
            some (.Text [104, 105])]).1 =
      .ok [some (.Integer 300), none, some (.Boolean true),
        some (.Text [104, 105])] :=
  write_then_seek_returns_written_tuple [9, 9]
    [some (.Integer 300), none, some (.Boolean true), some (.Text [104, 105])]
    (by decide) (by decide)

/-! ## C5: Index.update -/

/-- C5: for every key and frame payload length `L`, `Index::update key L`
maps `key` to the cursor value held before the update, advances the cursor by
exactly `8 + L`, and changes no other key's mapping. -/
theorem index_update_records_offset_and_advances_cursor
    (idx : Index) (key : ColumnValue) (L : Nat) :
    (idx.update key L).get key = some idx.byte_offset ∧
    (idx.update key L).byte_offset = idx.byte_offset + 8 + L ∧
    ∀ k, k ≠ key → (idx.update key L).get k = idx.get k := by
  refine ⟨?_, ?_, ?_⟩
  · simp [Index.update, Index.get, List.lookup]
  · simp [Index.update, calculate_new_offset, LENGTH_PREFIX_SIZE]
  · intro k hk
    have hbeq : (k == key) = false := beq_eq_false_iff_ne.mpr hk
    simp [Index.update, Index.get, List.lookup, hbeq]

/-- C5 witness: a concrete update against a one-entry index. -/
theorem index_update_records_offset_and_advances_cursor_witness :
    (Index.update ⟨[(.Integer 5, 0)], 10⟩ (.Integer 7) 3).get (.Integer 7) =
        some 10 ∧
    (Index.update ⟨[(.Integer 5, 0)], 10⟩ (.Integer 7) 3).byte_offset = 21 ∧
    (Index.update ⟨[(.Integer 5, 0)], 10⟩ (.Integer 7) 3).get (.Integer 5) =
      (⟨[(.Integer 5, 0)], 10⟩ : Index).get (.Integer 5) :=
  ⟨(index_update_records_offset_and_advances_cursor ⟨[(.Integer 5, 0)], 10⟩
      (.Integer 7) 3).1,
    (index_update_records_offset_and_advances_cursor ⟨[(.Integer 5, 0)], 10⟩
      (.Integer 7) 3).2.1,
    (index_update_records_offset_and_advances_cursor ⟨[(.Integer 5, 0)], 10⟩
      (.Integer 7) 3).2.2 (.Integer 5) (by decide)⟩

/-! ## C4: cursor equals file length -/

theorem buildIndexLoop_offset (pk : Nat) :
    ∀ (frames : List (Tuple × Nat)) (idx idx' : Index),
      buildIndexLoop pk frames idx = .ok idx' →
      idx'.byte_offset = idx.byte_offset + (frames.map fun f => 8 + f.2).sum := by
  intro frames
  induction frames with
  | nil =>
    intro idx idx' h
    simp only [buildIndexLoop, RunResult.ok.injEq] at h
    simp [h]
  | cons f rest ih =>
    intro idx idx' h
    obtain ⟨t, len⟩ := f
    simp only [buildIndexLoop] at h
    match hkey : t.get? pk with
    | none => rw [hkey] at h; exact absurd h (by simp)
    | some none => rw [hkey] at h; exact absurd h (by simp)
    | some (some k) =>
      rw [hkey] at h
      have := ih (idx.update k len) idx' h
      simp only [Index.update, calculate_new_offset, LENGTH_PREFIX_SIZE] at this
      simp only [List.map_cons, List.sum_cons]
      omega

theorem encodeLog_length (ts : List Tuple) :
    (encodeLog ts).length = (ts.map fun t => 8 + (serialize_binary t).length).sum := by
  induction ts with
  | nil => simp [encodeLog]
  | cons t ts ih =>
    simp only [encodeLog, List.map_cons, List.flatten_cons, List.length_append,
      List.sum_cons] at *
    rw [encodeFrame_length, ih]

/-- C4: the index-cursor invariant.  After `TableBuffer` construction over a
log of frames (the full replay of `build_index`), and after every completed
`TableBuffer::write`, the index's byte-offset cursor equals the physical byte
length of the backing log file — the sum over all frames of
`8 + payload length`. -/
theorem cursor_equals_file_length :
    (∀ (ts : List Tuple) (pk : Nat) (tb : TableBuffer),
      (∀ t ∈ ts, wfTuple t) →
      (∀ t ∈ ts, (serialize_binary t).length < 2 ^ 64) →
      TableBuffer.newFromFile pk (encodeLog ts) = .ok tb →
      tb.index.byte_offset = tb.file.length ∧
        tb.file.length = (ts.map fun t => 8 + (serialize_binary t).length).sum) ∧
    (∀ (tb : TableBuffer) (key : ColumnValue) (t : Tuple),
      tb.index.byte_offset = tb.file.length →
      (tb.write key t).index.byte_offset = (tb.write key t).file.length) := by
  constructor
  · intro ts pk tb hwf hlen hnew
    rw [TableBuffer.newFromFile] at hnew
    match hbuild : build_index pk (encodeLog ts) with
    | .error e => rw [hbuild] at hnew; exact absurd hnew (by simp)
    | .panicked => rw [hbuild] at hnew; exact absurd hnew (by simp)
    | .ok idx =>
      rw [hbuild] at hnew
      simp only [RunResult.ok.injEq] at hnew
      rw [build_index, readTuplesWithLength_encodeLog hwf hlen] at hbuild
      have hoff := buildIndexLoop_offset pk _ _ _ hbuild
      subst hnew
      constructor
      · simp only [Index.new] at hoff
        have hmm : (List.map (fun f => 8 + f.2)
            (List.map (fun t => (t, (serialize_binary t).length)) ts)) =
            ts.map fun t => 8 + (serialize_binary t).length := by
          simp [List.map_map, Function.comp_def]
        rw [hoff, hmm, encodeLog_length]
        simp
      · exact encodeLog_length ts
  · intro tb key t h
    simp only [TableBuffer.write, Block.write, Index.update, calculate_new_offset,
      LENGTH_PREFIX_SIZE, List.length_append, encodeFrame_length]
    omega

/-- C4 witness: a one-frame log replay and one further write, both leaving
the cursor at the file's length. -/
theorem cursor_equals_file_length_witness :
    ((⟨[2, 0, 0, 0, 0, 0, 0, 0, 145, 1],
        ⟨[(.Integer 1, 0)], 10⟩, 0⟩ : TableBuffer).index.byte_offset =
      (⟨[2, 0, 0, 0, 0, 0, 0, 0, 145, 1],
        ⟨[(.Integer 1, 0)], 10⟩, 0⟩ : TableBuffer).file.length ∧
      (⟨[2, 0, 0, 0, 0, 0, 0, 0, 145, 1],
        ⟨[(.Integer 1, 0)], 10⟩, 0⟩ : TableBuffer).file.length =
        (([[some (.Integer 1)]] : List Tuple).map
          fun t => 8 + (serialize_binary t).length).sum) ∧
    ((⟨[2, 0, 0, 0, 0, 0, 0, 0, 145, 1],
        ⟨[(.Integer 1, 0)], 10⟩, 0⟩ : TableBuffer).write (.Integer 2)
          [some (.Integer 2)]).index.byte_offset =
      ((⟨[2, 0, 0, 0, 0, 0, 0, 0, 145, 1],
        ⟨[(.Integer 1, 0)], 10⟩, 0⟩ : TableBuffer).write (.Integer 2)
          [some (.Integer 2)]).file.length :=
  ⟨cursor_equals_file_length.1 [[some (.Integer 1)]] 0
      ⟨[2, 0, 0, 0, 0, 0, 0, 0, 145, 1], ⟨[(.Integer 1, 0)], 10⟩, 0⟩
      (by decide) (by decide) (by decide),
    cursor_equals_file_length.2
      ⟨[2, 0, 0, 0, 0, 0, 0, 0, 145, 1], ⟨[(.Integer 1, 0)], 10⟩, 0⟩
      (.Integer 2) [some (.Integer 2)] (by decide)⟩

/-! ## C2: index replay -/

theorem writeSeq_spec :
    ∀ (ws : List (ColumnValue × Tuple)) (tb : TableBuffer),
      TableBuffer.writeSeq tb ws =
        ⟨tb.file ++ encodeLog (ws.map Prod.snd),
          applyUpdates tb.index
            (ws.map fun w => (w.1, (serialize_binary w.2).length)),
          tb.pk_position⟩ := by
  intro ws
  induction ws with
  | nil =>
    intro tb
    simp [TableBuffer.writeSeq, encodeLog, applyUpdates]
  | cons w ws ih =>
    intro tb
    have hstep : TableBuffer.writeSeq tb (w :: ws) =
        TableBuffer.writeSeq (tb.write w.1 w.2) ws := by
      simp [TableBuffer.writeSeq]
    rw [hstep, ih]
    simp only [TableBuffer.write, Block.write, List.map_cons, applyUpdates]
    rw [show encodeLog (w.2 :: ws.map Prod.snd) =
      encodeFrame w.2 ++ encodeLog (ws.map Prod.snd) by simp [encodeLog]]
    simp [List.append_assoc]

theorem buildIndexLoop_consistent_keys (pk : Nat) :
    ∀ (ws : List (ColumnValue × Tuple)) (idx : Index),
      (∀ w ∈ ws, w.2.get? pk = some (some w.1)) →
      buildIndexLoop pk (ws.map fun w => (w.2, (serialize_binary w.2).length))
          idx =
        .ok (applyUpdates idx
          (ws.map fun w => (w.1, (serialize_binary w.2).length))) := by
  intro ws
  induction ws with
  | nil => intro idx _; simp [buildIndexLoop, applyUpdates]
  | cons w ws ih =>
    intro idx hcons
    simp only [List.map_cons, buildIndexLoop, hcons w (by simp)]
    exact ih (idx.update w.1 (serialize_binary w.2).length)
      (fun u hu => hcons u (by simp [hu]))

/-- C2, amended: for every sequence of successful `TableBuffer::write`
calls with pairwise-distinct keys **whose tuples carry their key at the
table's primary-key position** (as every write issued by `put_item` does),
rebuilding the index by replaying the resulting log (`build_index`, streaming
frames in file order and calling `Index::update` per frame) yields an index
whose `get` and `contains_key` results equal those of the in-memory index the
writes produced, for every previously written key. -/
theorem rebuilt_index_agrees_with_inmemory_index (pk : Nat)
    (ws : List (ColumnValue × Tuple))
    (hwf : ∀ w ∈ ws, wfTuple w.2)
    (hlen : ∀ w ∈ ws, (serialize_binary w.2).length < 2 ^ 64)
    (hcons : ∀ w ∈ ws, w.2.get? pk = some (some w.1))
    (_hdist : ws.Pairwise fun a b => a.1 ≠ b.1) :
    ∃ tb', TableBuffer.newFromFile pk
        (TableBuffer.writeSeq (TableBuffer.mkEmpty pk) ws).file = .ok tb' ∧
      ∀ k ∈ ws.map Prod.fst,
        tb'.index.get k =
            (TableBuffer.writeSeq (TableBuffer.mkEmpty pk) ws).index.get k ∧
          tb'.contains_key k =
            (TableBuffer.writeSeq (TableBuffer.mkEmpty pk) ws).contains_key k := by
  rw [writeSeq_spec ws (TableBuffer.mkEmpty pk)]
  have hfile : (TableBuffer.mkEmpty pk).file ++ encodeLog (ws.map Prod.snd) =
      encodeLog (ws.map Prod.snd) := by
    simp [TableBuffer.mkEmpty]
  refine ⟨⟨encodeLog (ws.map Prod.snd),
    applyUpdates Index.new (ws.map fun w => (w.1, (serialize_binary w.2).length)),
    pk⟩, ?_, ?_⟩
  · simp only [hfile, TableBuffer.newFromFile, build_index]
    rw [readTuplesWithLength_encodeLog
      (by intro t ht; obtain ⟨w, hw, rfl⟩ := List.mem_map.mp ht; exact hwf w hw)
      (by intro t ht; obtain ⟨w, hw, rfl⟩ := List.mem_map.mp ht; exact hlen w hw)]
    have hmm : (ws.map Prod.snd).map (fun t => (t, (serialize_binary t).length)) =
        ws.map fun w => (w.2, (serialize_binary w.2).length) := by
      simp [List.map_map, Function.comp_def]
    rw [hmm]
    simp [buildIndexLoop_consistent_keys pk ws Index.new hcons]
  · intro k _
    simp [TableBuffer.mkEmpty, TableBuffer.contains_key, Index.get]

/-- C2 witness: one consistent write replayed from the log it produced. -/
theorem rebuilt_index_agrees_with_inmemory_index_witness :
    ∃ tb', TableBuffer.newFromFile 0
        (TableBuffer.writeSeq (TableBuffer.mkEmpty 0)
          [(.Integer 1, [some (.Integer 1)])]).file = .ok tb' ∧
      ∀ k ∈ ([(ColumnValue.Integer 1, [some (ColumnValue.Integer 1)])].map
          Prod.fst),
        tb'.index.get k =
            (TableBuffer.writeSeq (TableBuffer.mkEmpty 0)
              [(.Integer 1, [some (.Integer 1)])]).index.get k ∧
          tb'.contains_key k =
            (TableBuffer.writeSeq (TableBuffer.mkEmpty 0)
              [(.Integer 1, [some (.Integer 1)])]).contains_key k :=
  rebuilt_index_agrees_with_inmemory_index 0
    [(.Integer 1, [some (.Integer 1)])]
    (by decide) (by decide) (by decide) (by decide)

/-- C2 counterexample to the claim as stated: a single successful
`TableBuffer::write` (trivially pairwise-distinct keys) whose key is not the
tuple's primary-key value.  The replayed index indexes the tuple's value
`Integer 1`, not the written key `Integer 0`, so `get`/`contains_key` on the
previously written key `Integer 0` disagree between the in-memory index
(`some 0` / `true`) and the rebuilt one (`none` / `false`). -/
theorem rebuilt_index_disagrees_for_inconsistent_write :
    TableBuffer.newFromFile 0
        (TableBuffer.writeSeq (TableBuffer.mkEmpty 0)
          [(.Integer 0, [some (.Integer 1)])]).file =
      .ok ⟨[2, 0, 0, 0, 0, 0, 0, 0, 145, 1], ⟨[(.Integer 1, 0)], 10⟩, 0⟩ ∧
    (⟨[(.Integer 1, 0)], 10⟩ : Index).get (.Integer 0) ≠
      (TableBuffer.writeSeq (TableBuffer.mkEmpty 0)
        [(.Integer 0, [some (.Integer 1)])]).index.get (.Integer 0) ∧
    (⟨[2, 0, 0, 0, 0, 0, 0, 0, 145, 1],
        ⟨[(.Integer 1, 0)], 10⟩, 0⟩ : TableBuffer).contains_key (.Integer 0) ≠
      (TableBuffer.writeSeq (TableBuffer.mkEmpty 0)
        [(.Integer 0, [some (.Integer 1)])]).contains_key (.Integer 0) := by
  decide

/-! ## C8: last-writer-wins replay -/

theorem lastOffsetOfFrames_none (pk : Nat) (k : ColumnValue) :
    ∀ (frames : List (Tuple × Nat)) (c : Nat),
      (∀ f ∈ frames, f.1.get? pk ≠ some (some k)) →
      lastOffsetOfFrames pk k c frames = none := by
  intro frames
  induction frames with
  | nil => intro c _; rfl
  | cons f rest ih =>
    intro c hnone
    obtain ⟨t, len⟩ := f
    simp only [lastOffsetOfFrames]
    rw [ih (c + 8 + len) (fun g hg => hnone g (by simp [hg]))]
    rw [if_neg (hnone (t, len) (by simp))]

theorem lastOffsetOfFrames_last_occurrence (pk : Nat) (k : ColumnValue) :
    ∀ (ts : List Tuple) (i c : Nat) (hi : i < ts.length),
      (ts.get ⟨i, hi⟩).get? pk = some (some k) →
      (∀ j (hj : j < ts.length), i < j →
        (ts.get ⟨j, hj⟩).get? pk ≠ some (some k)) →
      lastOffsetOfFrames pk k c
          (ts.map fun t => (t, (serialize_binary t).length)) =
        some (c + ((ts.take i).map fun t => 8 + (serialize_binary t).length).sum) := by
  intro ts
  induction ts with
  | nil => intro i c hi; simp at hi
  | cons t rest ih =>
    intro i c hi hk hlast
    match i with
    | 0 =>
      simp only [List.map_cons, lastOffsetOfFrames]
      rw [lastOffsetOfFrames_none pk k _ _ ?hnone]
      · simp only [List.get] at hk
        rw [if_pos hk]
        simp
      case hnone =>
        intro f hf
        obtain ⟨u, hu, rfl⟩ := List.mem_map.mp hf
        obtain ⟨⟨n, hn⟩, rfl⟩ := List.mem_iff_get.mp hu
        exact hlast (n + 1) (by simpa using hn) (by omega)
    | i' + 1 =>
      simp only [List.map_cons, lastOffsetOfFrames]
      have hk' : (rest.get ⟨i', by simpa using hi⟩).get? pk = some (some k) := by
        simpa using hk
      have hlast' : ∀ j (hj : j < rest.length), i' < j →
          (rest.get ⟨j, hj⟩).get? pk ≠ some (some k) := by
        intro j hj hgt
        have := hlast (j + 1) (by simpa using hj) (by omega)
        simpa using this
      rw [ih i' (c + 8 + (serialize_binary t).length) (by simpa using hi) hk'
        hlast']
      have harith : c + 8 + (serialize_binary t).length +
          ((rest.take i').map fun u => 8 + (serialize_binary u).length).sum =
          c + (((t :: rest).take (i' + 1)).map
            fun u => 8 + (serialize_binary u).length).sum := by
        simp only [List.take_succ_cons, List.map_cons, List.sum_cons]
        omega
      rw [harith]

theorem buildIndexLoop_lookup (pk : Nat) (k : ColumnValue) :
    ∀ (frames : List (Tuple × Nat)) (idx idx' : Index),
      buildIndexLoop pk frames idx = .ok idx' →
      idx'.get k =
        match lastOffsetOfFrames pk k idx.byte_offset frames with
        | some o => some o
        | none => idx.get k := by
  intro frames
  induction frames with
  | nil =>
    intro idx idx' h
    simp only [buildIndexLoop, RunResult.ok.injEq] at h
    subst h
    rfl
  | cons f rest ih =>
    intro idx idx' h
    obtain ⟨t, len⟩ := f
    simp only [buildIndexLoop] at h
    match hkey : t.get? pk with
    | none => rw [hkey] at h; exact absurd h (by simp)
    | some none => rw [hkey] at h; exact absurd h (by simp)
    | some (some kv) =>
      rw [hkey] at h
      have hupd : (idx.update kv len).byte_offset = idx.byte_offset + 8 + len := by
        simp [Index.update, calculate_new_offset, LENGTH_PREFIX_SIZE]
      have := ih (idx.update kv len) idx' h
      rw [hupd] at this
      simp only [lastOffsetOfFrames]
      match hrest : lastOffsetOfFrames pk k (idx.byte_offset + 8 + len) rest with
      | some o =>
        rw [hrest] at this
        simpa using this
      | none =>
        rw [hrest] at this
        simp only at this
        rw [this]
        by_cases hkk : k = kv
        · subst hkk
          rw [if_pos hkey]
          simp [Index.update, Index.get, List.lookup]
        · have hne : t.get? pk ≠ some (some k) := by
            rw [hkey]
            intro hcontra
            exact hkk (by injection hcontra with h1; injection h1 with h2; exact h2.symm)
          rw [if_neg hne]
          have hbeq : (k == kv) = false := beq_eq_false_iff_ne.mpr hkk
          simp [Index.update, Index.get, List.lookup, hbeq]

/-- C8: index rebuild is last-writer-wins.  For every log containing two or
more frames whose tuples carry the same primary-key value `k` (here: frames
`i0 < i`, with no occurrence of `k` after `i`), after `build_index` the index
maps `k` to the byte offset of the latest such frame in file order — the sum
of `8 + payload length` over the frames before it. -/
theorem rebuild_is_last_writer_wins (pk : Nat) (ts : List Tuple)
    (k : ColumnValue) (i0 i : Nat) (hi0 : i0 < i) (hi : i < ts.length)
    (hwf : ∀ t ∈ ts, wfTuple t)
    (hlen : ∀ t ∈ ts, (serialize_binary t).length < 2 ^ 64)
    (_hk0 : (ts.get ⟨i0, by omega⟩).get? pk = some (some k))
    (hk : (ts.get ⟨i, hi⟩).get? pk = some (some k))
    (hlast : ∀ j (hj : j < ts.length), i < j →
      (ts.get ⟨j, hj⟩).get? pk ≠ some (some k))
    (tb : TableBuffer)
    (hbuild : TableBuffer.newFromFile pk (encodeLog ts) = .ok tb) :
    tb.index.get k =
      some (((ts.take i).map fun t => 8 + (serialize_binary t).length).sum) := by
  rw [TableBuffer.newFromFile] at hbuild
  match hidx : build_index pk (encodeLog ts) with
  | .error e => rw [hidx] at hbuild; exact absurd hbuild (by simp)
  | .panicked => rw [hidx] at hbuild; exact absurd hbuild (by simp)
  | .ok idx =>
    rw [hidx] at hbuild
    simp only [RunResult.ok.injEq] at hbuild
    subst hbuild
    rw [build_index, readTuplesWithLength_encodeLog hwf hlen] at hidx
    simp only at hidx
    have := buildIndexLoop_lookup pk k _ _ _ hidx
    rw [lastOffsetOfFrames_last_occurrence pk k ts i Index.new.byte_offset hi hk
      hlast] at this
    simpa [Index.new] using this

/-- C8 witness: a log with two frames for key `Integer 7`; the rebuilt index
maps the key to the second frame's offset `10`. -/
theorem rebuild_is_last_writer_wins_witness :
    (⟨[2, 0, 0, 0, 0, 0, 0, 0, 145, 7, 2, 0, 0, 0, 0, 0, 0, 0, 145, 7],
        ⟨[(.Integer 7, 10), (.Integer 7, 0)], 20⟩, 0⟩ : TableBuffer).index.get
        (.Integer 7) =
      some ((([[some (.Integer 7)], [some (.Integer 7)]] : List Tuple).take 1
        |>.map fun t => 8 + (serialize_binary t).length).sum) :=
  rebuild_is_last_writer_wins 0 [[some (.Integer 7)], [some (.Integer 7)]]
    (.Integer 7) 0 1 (by omega) (by decide) (by decide) (by decide)
    (by decide) (by decide)
    (by
      intro j hj hgt
      simp only [List.length_cons, List.length_nil] at hj
      omega)
    ⟨[2, 0, 0, 0, 0, 0, 0, 0, 145, 7, 2, 0, 0, 0, 0, 0, 0, 0, 145, 7],
      ⟨[(.Integer 7, 10), (.Integer 7, 0)], 20⟩, 0⟩
    (by decide)

/-! ## C3: put_item is insert-only -/

theorem get_table_cons (t : Table) (rest : List Table) (name : String) :
    Catalog.get_table ⟨t :: rest⟩ name =
      if t.name = name then some t else Catalog.get_table ⟨rest⟩ name := by
  by_cases ht : t.name = name <;> simp [Catalog.get_table, List.find?, ht]

theorem get_table_updateTable (cat : Catalog) (name : String) (f : Table → Table)
    (hname : ∀ t, (f t).name = t.name) :
    ∀ table, cat.get_table name = some table →
      (cat.updateTable name f).get_table name = some (f table) := by
  obtain ⟨tables⟩ := cat
  induction tables with
  | nil => intro table h; simp [Catalog.get_table] at h
  | cons t rest ih =>
    intro table h
    rw [get_table_cons] at h
    by_cases ht : t.name = name
    · rw [if_pos ht] at h
      injection h with h
      subst h
      have hupd : Catalog.updateTable ⟨t :: rest⟩ name f =
          ⟨f t :: (rest.map fun tb => if tb.name = name then f tb else tb)⟩ := by
        simp [Catalog.updateTable, ht]
      rw [hupd, get_table_cons, if_pos (by rw [hname]; exact ht)]
    · rw [if_neg ht] at h
      have hupd : Catalog.updateTable ⟨t :: rest⟩ name f =
          ⟨t :: (rest.map fun tb => if tb.name = name then f tb else tb)⟩ := by
        simp [Catalog.updateTable, ht]
      rw [hupd, get_table_cons, if_neg ht]
      exact ih table h

theorem write_contains_key (tb : TableBuffer) (key : ColumnValue) (t : Tuple) :
    (tb.write key t).contains_key key = true := by
  simp [TableBuffer.write, TableBuffer.contains_key, Index.update, List.lookup]

/-- C3: `put_item` is insert-only.  First part: for every table and item
whose primary-key value is already present in the table's index, `put_item`
fails with `PrimaryKeyAlreadyExists` (the check precedes any write, and the
returned error carries no new catalog, so nothing is written).  Second part:
after a successful `put_item` with a primary-key value, a second `put_item`
with the same primary-key value on the same table fails with that error. -/
theorem put_item_rejects_existing_primary_key :
    (∀ (cat : Catalog) (tname : String) (item : Item) (table : Table)
        (key : ColumnValue),
      cat.get_table tname = some table →
      item.lookup table.primary_key = some key →
      table.table_buffer.contains_key key = true →
      put_item cat tname item = .error (.PrimaryKeyAlreadyExists key)) ∧
    (∀ (cat cat' : Catalog) (tname : String) (item item' : Item)
        (table : Table) (key : ColumnValue),
      cat.get_table tname = some table →
      item.lookup table.primary_key = some key →
      put_item cat tname item = .ok cat' →
      item'.lookup table.primary_key = some key →
      put_item cat' tname item' = .error (.PrimaryKeyAlreadyExists key)) := by
  constructor
  · intro cat tname item table key hget hlookup hcontains
    simp [put_item, hget, hlookup, hcontains]
  · intro cat cat' tname item item' table key hget hlookup hok hlookup'
    simp only [put_item, hget, hlookup] at hok
    by_cases hcont : table.table_buffer.contains_key key = true
    · rw [if_pos hcont] at hok
      exact absurd hok (by simp)
    · rw [if_neg hcont] at hok
      match htc : typecheckItem table.columns item with
      | some e =>
        rw [htc] at hok
        exact absurd hok (by simp)
      | none =>
        rw [htc] at hok
        simp only [Except.ok.injEq] at hok
        subst hok
        have hget' := get_table_updateTable cat tname
          (fun t => { t with
            table_buffer := t.table_buffer.write key
              (table.columns.map fun column => item.lookup column.name) })
          (fun t => rfl) table hget
        simp only [put_item, hget', hlookup', write_contains_key]
        simp

/-- C3 witness: inserting primary key `42` into a fresh `authors` table
succeeds; a second insert with primary key `42` fails with
`PrimaryKeyAlreadyExists`. -/
theorem put_item_rejects_existing_primary_key_witness :
    put_item
        ⟨[⟨"authors", [⟨"id", .Integer⟩, ⟨"name", .Text⟩], "id",
          ⟨[4, 0, 0, 0, 0, 0, 0, 0, 146, 42, 161, 97],
            ⟨[(.Integer 42, 0)], 12⟩, 0⟩⟩]⟩
        "authors" [("id", .Integer 42), ("name", .Text [98])] =
      .error (.PrimaryKeyAlreadyExists (.Integer 42)) :=
  put_item_rejects_existing_primary_key.2
    ⟨[⟨"authors", [⟨"id", .Integer⟩, ⟨"name", .Text⟩], "id",
      TableBuffer.mkEmpty 0⟩]⟩
    ⟨[⟨"authors", [⟨"id", .Integer⟩, ⟨"name", .Text⟩], "id",
      ⟨[4, 0, 0, 0, 0, 0, 0, 0, 146, 42, 161, 97],
        ⟨[(.Integer 42, 0)], 12⟩, 0⟩⟩]⟩
    "authors" [("id", .Integer 42), ("name", .Text [97])]
    [("id", .Integer 42), ("name", .Text [98])]
    ⟨"authors", [⟨"id", .Integer⟩, ⟨"name", .Text⟩], "id",
      TableBuffer.mkEmpty 0⟩
    (.Integer 42)
    (by decide) (by decide) (by decide) (by decide)

/-! ## C6: get_item misses -/

/-- C6: for every existing table and every key not present in the table's
index, `get_item` with `scan_file = false` returns `None` (not an error);
`get_item` on a non-existent table name returns `TableNotFound`. -/
theorem get_item_absent_key_and_absent_table :
    (∀ (cat : Catalog) (tname : String) (table : Table) (key : ColumnValue),
      cat.get_table tname = some table →
      table.table_buffer.contains_key key = false →
      get_item cat tname key false = .ok none) ∧
    (∀ (cat : Catalog) (tname : String) (key : ColumnValue) (scan : Bool),
      cat.get_table tname = none →
      get_item cat tname key scan = .error (.TableNotFound tname)) := by
  constructor
  · intro cat tname table key hget hmiss
    have hnone : table.table_buffer.index.get key = none := by
      rw [TableBuffer.contains_key] at hmiss
      rw [Index.get]
      exact Option.not_isSome_iff_eq_none.mp (by simp [hmiss])
    simp [get_item, hget, TableBuffer.get, hnone]
  · intro cat tname key scan hget
    simp [get_item, hget]

/-- C6 witness: an index miss on an existing (empty) table returns `ok none`;
a missing table name returns `TableNotFound`. -/
theorem get_item_absent_key_and_absent_table_witness :
    get_item ⟨[⟨"t", [⟨"id", .Integer⟩], "id", TableBuffer.mkEmpty 0⟩]⟩ "t"
        (.Integer 1) false = .ok none ∧
    get_item ⟨[⟨"t", [⟨"id", .Integer⟩], "id", TableBuffer.mkEmpty 0⟩]⟩
        "missing" (.Integer 1) true = .error (.TableNotFound "missing") :=
  ⟨get_item_absent_key_and_absent_table.1
      ⟨[⟨"t", [⟨"id", .Integer⟩], "id", TableBuffer.mkEmpty 0⟩]⟩ "t"
      ⟨"t", [⟨"id", .Integer⟩], "id", TableBuffer.mkEmpty 0⟩ (.Integer 1)
      (by decide) (by decide),
    get_item_absent_key_and_absent_table.2
      ⟨[⟨"t", [⟨"id", .Integer⟩], "id", TableBuffer.mkEmpty 0⟩]⟩ "missing"
      (.Integer 1) true (by decide)⟩

/-! ## C7: empty connectives -/

theorem filterLoop_and_empty (columns : List ColumnDefinition) :
    ∀ (ts : List Tuple), (∀ t ∈ ts, t.length ≤ columns.length) →
      filterLoop columns (.And []) ts =
        .ok (ts.map fun t => (columns.map fun c => c.name).zip t) := by
  intro ts
  induction ts with
  | nil => intro _; rfl
  | cons t ts ih =>
    intro hlen
    rw [filterLoop]
    rw [show evaluate_expression columns (.And []) t = some true from by
      simp [evaluate_expression, evalAll]]
    rw [show build_record columns t =
        some ((columns.map fun c => c.name).zip t) from by
      simp [build_record, hlen t (by simp)]]
    rw [ih (fun u hu => hlen u (by simp [hu]))]
    simp

theorem filterLoop_or_empty (columns : List ColumnDefinition) :
    ∀ (ts : List Tuple), filterLoop columns (.Or []) ts = .ok [] := by
  intro ts
  induction ts with
  | nil => rfl
  | cons t ts ih =>
    rw [filterLoop]
    rw [show evaluate_expression columns (.Or []) t = some false from by
      simp [evaluate_expression, evalAny]]
    exact ih

/-- C7: expression evaluation is vacuous on empty connectives: for every
tuple, `And []` evaluates to `true` and `Or []` evaluates to `false`;
consequently `filter_item (And [])` over any non-empty table returns every
row (as its record) and `filter_item (Or [])` returns no rows. -/
theorem empty_connectives_vacuous :
    (∀ (columns : List ColumnDefinition) (t : Tuple),
      evaluate_expression columns (.And []) t = some true ∧
        evaluate_expression columns (.Or []) t = some false) ∧
    (∀ (cat : Catalog) (tname : String) (table : Table) (ts : List Tuple),
      cat.get_table tname = some table →
      readTuples table.table_buffer.file = some ts →
      ts ≠ [] →
      (∀ t ∈ ts, t.length ≤ table.columns.length) →
      filter_item cat tname (.And []) =
          .ok (ts.map fun t => (table.columns.map fun c => c.name).zip t) ∧
        filter_item cat tname (.Or []) = .ok []) := by
  constructor
  · intro columns t
    exact ⟨by simp [evaluate_expression, evalAll],
      by simp [evaluate_expression, evalAny]⟩
  · intro cat tname table ts hget hread _ hlen
    constructor
    · simp only [filter_item, hget, hread]
      exact filterLoop_and_empty table.columns ts hlen
    · simp only [filter_item, hget, hread]
      exact filterLoop_or_empty table.columns ts

/-- C7 witness: a one-row table; `And []` returns the row, `Or []` returns
nothing. -/
theorem empty_connectives_vacuous_witness :
    filter_item
        ⟨[⟨"t", [⟨"id", .Integer⟩], "id",
          ⟨[2, 0, 0, 0, 0, 0, 0, 0, 145, 1], ⟨[(.Integer 1, 0)], 10⟩, 0⟩⟩]⟩
        "t" (.And []) =
      .ok (([[some (.Integer 1)]] : List Tuple).map
        fun t => (([⟨"id", .Integer⟩] : List ColumnDefinition).map
          fun c => c.name).zip t) ∧
    filter_item
        ⟨[⟨"t", [⟨"id", .Integer⟩], "id",
          ⟨[2, 0, 0, 0, 0, 0, 0, 0, 145, 1], ⟨[(.Integer 1, 0)], 10⟩, 0⟩⟩]⟩
        "t" (.Or []) = .ok [] :=
  empty_connectives_vacuous.2
    ⟨[⟨"t", [⟨"id", .Integer⟩], "id",
      ⟨[2, 0, 0, 0, 0, 0, 0, 0, 145, 1], ⟨[(.Integer 1, 0)], 10⟩, 0⟩⟩]⟩
    "t" ⟨"t", [⟨"id", .Integer⟩], "id",
      ⟨[2, 0, 0, 0, 0, 0, 0, 0, 145, 1], ⟨[(.Integer 1, 0)], 10⟩, 0⟩⟩
    [[some (.Integer 1)]]
    (by decide) (by decide) (by decide) (by decide)

/-! ## C9: null in a compared column -/

theorem eval_comparison_null (columns : List ColumnDefinition)
    (comparison : ColumnComparison) (tuple : Tuple) (col_pos : Nat)
    (hpos : columns.findIdx? (fun col_def => col_def.name = comparison.column) =
      some col_pos)
    (hnull : tuple.get? col_pos = some none) :
    evaluate_expression columns (.ColumnComparison comparison) tuple = none := by
  have hnull' : tuple[col_pos]? = some none := by
    rw [← List.get?_eq_getElem?]
    exact hnull
  simp [evaluate_expression, hpos, hnull']

/-- C9: evaluating a `Comparison` against a tuple whose value at the compared
schema position is null crashes: the evaluator's implicit unwrap panics
(`none` models the panic), so for some table and expression, `filter_item`
over a row with a null in the compared column panics rather than returning a
boolean result or an error. -/
theorem null_in_compared_column_panics :
    (∀ (columns : List ColumnDefinition) (comparison : ColumnComparison)
        (tuple : Tuple) (col_pos : Nat),
      columns.findIdx? (fun col_def => col_def.name = comparison.column) =
          some col_pos →
      tuple.get? col_pos = some none →
      evaluate_expression columns (.ColumnComparison comparison) tuple = none) ∧
    (∃ (cat : Catalog) (tname : String) (e : Expression),
      filter_item cat tname e = .panicked) := by
  refine ⟨eval_comparison_null, ?_⟩
  refine ⟨⟨[⟨"t", [⟨"id", .Integer⟩], "id",
    ⟨[2, 0, 0, 0, 0, 0, 0, 0, 145, 192], ⟨[], 0⟩, 0⟩⟩]⟩, "t",
    .ColumnComparison ⟨"id", .Eq, .Integer 0⟩, ?_⟩
  have hget : Catalog.get_table
      ⟨[⟨"t", [⟨"id", .Integer⟩], "id",
        ⟨[2, 0, 0, 0, 0, 0, 0, 0, 145, 192], ⟨[], 0⟩, 0⟩⟩]⟩ "t" =
      some ⟨"t", [⟨"id", .Integer⟩], "id",
        ⟨[2, 0, 0, 0, 0, 0, 0, 0, 145, 192], ⟨[], 0⟩, 0⟩⟩ := by decide
  have hread : readTuples ([2, 0, 0, 0, 0, 0, 0, 0, 145, 192] : List Nat) =
      some [[none]] := by decide
  have heval := eval_comparison_null [⟨"id", .Integer⟩]
    ⟨"id", .Eq, .Integer 0⟩ [none] 0 (by decide) (by decide)
  simp only [filter_item, hget, hread, filterLoop, heval]

/-- C9 witness: the evaluator panic at a concrete schema, comparison and
null-carrying tuple. -/
theorem null_in_compared_column_panics_witness :
    evaluate_expression [⟨"id", .Integer⟩]
        (.ColumnComparison ⟨"id", .Eq, .Integer 0⟩) [none] = none :=
  null_in_compared_column_panics.1 [⟨"id", .Integer⟩]
    ⟨"id", .Eq, .Integer 0⟩ [none] 0 (by decide) (by decide)

/-! ## C10: unknown column in a comparison -/

/-- C10 counterexample to the claim as stated: over a table with no rows,
`filter_item` with a comparison on a column absent from the schema does not
panic — the scan visits no tuple, so the unwrap is never reached and the
result is `ok []`. -/
theorem unknown_column_empty_table_does_not_panic :
    filter_item ⟨[⟨"t", [⟨"id", .Integer⟩], "id", TableBuffer.mkEmpty 0⟩]⟩ "t"
        (.ColumnComparison ⟨"nope", .Eq, .Integer 0⟩) = .ok [] := by
  decide

/-- C10, amended: `filter_item` with a `Comparison` whose column name does
not occur in the table's schema panics (the schema-position lookup is
unwrapped) instead of returning an `UnknownColumnInItem`-style error, for
every table holding at least one (decodable) row. -/
theorem unknown_column_filter_panics (cat : Catalog) (tname : String)
    (table : Table) (comparison : ColumnComparison) (t : Tuple)
    (ts : List Tuple)
    (hget : cat.get_table tname = some table)
    (hread : readTuples table.table_buffer.file = some (t :: ts))
    (hcol : table.columns.findIdx? (fun c => c.name = comparison.column) = none) :
    filter_item cat tname (.ColumnComparison comparison) = .panicked := by
  have heval : evaluate_expression table.columns
      (.ColumnComparison comparison) t = none := by
    simp [evaluate_expression, hcol]
  simp only [filter_item, hget, hread, filterLoop, heval]

/-- C10 witness: a one-row table and a comparison on a column that is not in
the schema; the filter panics. -/
theorem unknown_column_filter_panics_witness :
    filter_item
        ⟨[⟨"t", [⟨"id", .Integer⟩], "id",
          ⟨[2, 0, 0, 0, 0, 0, 0, 0, 145, 1], ⟨[(.Integer 1, 0)], 10⟩, 0⟩⟩]⟩
        "t" (.ColumnComparison ⟨"nope", .Eq, .Integer 0⟩) = .panicked :=
  unknown_column_filter_panics
    ⟨[⟨"t", [⟨"id", .Integer⟩], "id",
      ⟨[2, 0, 0, 0, 0, 0, 0, 0, 145, 1], ⟨[(.Integer 1, 0)], 10⟩, 0⟩⟩]⟩
    "t" ⟨"t", [⟨"id", .Integer⟩], "id",
      ⟨[2, 0, 0, 0, 0, 0, 0, 0, 145, 1], ⟨[(.Integer 1, 0)], 10⟩, 0⟩⟩
    ⟨"nope", .Eq, .Integer 0⟩ [some (.Integer 1)] []
    (by decide) (by decide) (by decide)

end DumbDB
